import Mathlib

/-!
Shallow embedding of the persistent slab storage layer of the atree
repository (`array_debug.go`) and of the default digester
(`basicDigester`), with theorems checking the specification's claims
about commit ordering, commit/fast-commit equivalence, retrieve
layering, auto-commit behaviour, handle allocation and segment counts.

Modelling conventions:
* Go `[8]byte` addresses and indices are interpreted through
  `binary.BigEndian.Uint64`, which is a bijection between 8-byte arrays
  and `uint64`; we model both as `Nat` values below `2 ^ 64`, with Go
  `uint64` arithmetic made explicit as `% u64Mod`.  Byte-array equality
  coincides with equality of the big-endian values, and the sort
  comparator in `sortedOwnedDeltaKeys` compares exactly these values.
* Go maps become association lists with map semantics (`mapLookup`,
  `mapInsert`, `mapErase`); Go map indexing, which yields the zero
  value for a missing key, becomes `mapGetD` with the zero value as
  default.  Go map iteration order is unspecified; every iteration in
  the embedded code happens after an explicit sort, so the list order
  never shows through.
* The `Slab` interface and its CBOR codec (`Encode` / `DecodeSlab`)
  live outside the given sources, so slabs are a type parameter and the
  codec is passed as a function parameter (`enc`, `dec`); a `nil` Go
  `Slab` (the deletion tombstone in `deltas`) is `Option.none`.
* The `BaseStorage` interface is a record of functions
  (`BaseStorageOps`) over an abstract base-state type; the concrete
  `InMemBaseStorage` from the source instantiates it.
-/

namespace Atree

/-- `2 ^ 64`, the modulus of Go `uint64` arithmetic. -/
def u64Mod : Nat := 2 ^ 64

/-- `StorageID`: pair of address and index (source lines 262-270).
An address is the big-endian `uint64` view of the 8-byte `Address`
array, an index the big-endian `uint64` view of the 8-byte
`StorageIndex` array; both are `Nat` values below `u64Mod`. -/
structure StorageID where
  address : Nat
  index : Nat
deriving DecidableEq

/-- `AddressUndefined`: the all-zero address. -/
def AddressUndefined : Nat := 0

/-- `StorageIndexUndefined`: the all-zero index. -/
def StorageIndexUndefined : Nat := 0

/-- `StorageIDUndefined`: the all-zero storage id. -/
def StorageIDUndefined : StorageID := ⟨0, 0⟩

/-- `StorageIndex.Next` (source lines 299-306): read the index as a
big-endian `uint64`, add 1 (wrapping like Go `uint64`), write it back. -/
def StorageIndex.Next (index : Nat) : Nat :=
  (index + 1) % u64Mod

/-- `NewStorageID` (source lines 308-310). -/
def NewStorageID (address : Nat) (index : Nat) : StorageID :=
  ⟨address, index⟩

section MapHelpers

variable {K V : Type} [DecidableEq K]

/-- Association-list lookup, modelling Go `v, ok := m[k]`. -/
def mapLookup (k : K) : List (K × V) → Option V
  | [] => none
  | (k', v) :: rest => if k' = k then some v else mapLookup k rest

/-- Go map indexing `m[k]`, which yields the zero value `d` when the
key is absent. -/
def mapGetD (k : K) (m : List (K × V)) (d : V) : V :=
  (mapLookup k m).getD d

/-- Association-list update, modelling Go `m[k] = v` (replaces in
place, appends when absent). -/
def mapInsert (k : K) (v : V) : List (K × V) → List (K × V)
  | [] => [(k, v)]
  | (k', v') :: rest =>
    if k' = k then (k, v) :: rest else (k', v') :: mapInsert k v rest

/-- Association-list deletion, modelling Go `delete(m, k)`. -/
def mapErase (k : K) (m : List (K × V)) : List (K × V) :=
  m.filter (fun p => p.1 ≠ k)

/-- Go set insertion `m[k] = struct\x7b\x7d{}` on a `map[K]struct` used as a
set. -/
def setInsert (k : K) (s : List K) : List K :=
  if k ∈ s then s else s ++ [k]

end MapHelpers

/-- `InMemBaseStorage` (source lines 364-372): segments plus the
per-address index counters and the usage-reporter fields. -/
structure InMemBaseStorage where
  segments : List (StorageID × List Nat)
  storageIndex : List (Nat × Nat)
  bytesRetrieved : Nat
  bytesStored : Nat
  segmentsReturned : List StorageID
  segmentsUpdated : List StorageID
  segmentsTouched : List StorageID
deriving DecidableEq

/-- `NewInMemBaseStorage` (source lines 374-388). -/
def NewInMemBaseStorage : InMemBaseStorage :=
  ⟨[], [], 0, 0, [], [], []⟩

/-- `InMemBaseStorage.Retrieve` (source lines 390-396): returns the
segment bytes (`nil`, i.e. `[]`, when absent) and the presence flag;
the source's error component is always `nil` so it is omitted.  Also
updates the reporter fields. -/
def InMemBaseStorage.Retrieve (s : InMemBaseStorage) (id : StorageID) :
    (List Nat × Bool) × InMemBaseStorage :=
  let seg := mapGetD id s.segments []
  let ok := (mapLookup id s.segments).isSome
  ((seg, ok),
    { s with
      bytesRetrieved := s.bytesRetrieved + seg.length
      segmentsReturned := setInsert id s.segmentsReturned
      segmentsTouched := setInsert id s.segmentsTouched })

/-- `InMemBaseStorage.Store` (source lines 398-404); the returned error
is always `nil` so it is omitted. -/
def InMemBaseStorage.Store (s : InMemBaseStorage) (id : StorageID)
    (data : List Nat) : InMemBaseStorage :=
  { s with
    segments := mapInsert id data s.segments
    bytesStored := s.bytesStored + data.length
    segmentsUpdated := setInsert id s.segmentsUpdated
    segmentsTouched := setInsert id s.segmentsTouched }

/-- `InMemBaseStorage.Remove` (source lines 406-411); the returned
error is always `nil` so it is omitted. -/
def InMemBaseStorage.Remove (s : InMemBaseStorage) (id : StorageID) :
    InMemBaseStorage :=
  { s with
    segmentsUpdated := setInsert id s.segmentsUpdated
    segmentsTouched := setInsert id s.segmentsTouched
    segments := mapErase id s.segments }

/-- `InMemBaseStorage.GenerateStorageID` (source lines 413-419): read
the per-address counter (zero value `0` when absent), advance it with
`StorageIndex.Next`, store it back and return the new id; the error is
always `nil` so it is omitted. -/
def InMemBaseStorage.GenerateStorageID (s : InMemBaseStorage)
    (address : Nat) : StorageID × InMemBaseStorage :=
  let index := mapGetD address s.storageIndex 0
  let nextIndex := StorageIndex.Next index
  (NewStorageID address nextIndex,
    { s with storageIndex := mapInsert address nextIndex s.storageIndex })

/-- `InMemBaseStorage.SegmentCounts` (source lines 421-423). -/
def InMemBaseStorage.SegmentCounts (s : InMemBaseStorage) : Nat :=
  s.segments.length

/-- A quick sanity check kept as an `example` (not named by any claim). -/
example :
    (NewInMemBaseStorage.GenerateStorageID 7).1 = ⟨7, 1⟩ := by
  decide

/-- `PersistentSlabStorage` (source lines 772-782): deltas and cache
over a base storage.  `Slab` is a type parameter (the Go `Slab`
interface is defined outside the given sources); a `nil` Go slab — the
deletion tombstone in `deltas` — is `Option.none`.  The codec modes and
decoders are function parameters of the operations instead of fields. -/
structure PersistentSlabStorage (Slab : Type) where
  cache : List (StorageID × Slab)
  deltas : List (StorageID × Option Slab)
  tempStorageIndex : Nat
  autoCommit : Bool
deriving DecidableEq

/-- `NewPersistentSlabStorage` with no options (source lines 788-811):
empty cache and deltas, `autoCommit` defaults to `false`. -/
def NewPersistentSlabStorage (Slab : Type) : PersistentSlabStorage Slab :=
  ⟨[], [], 0, false⟩

/-- `WithAutoCommit` (source lines 813-819). -/
def WithAutoCommit {Slab : Type} (st : PersistentSlabStorage Slab) :
    PersistentSlabStorage Slab :=
  { st with autoCommit := true }

/-- The `BaseStorage` interface (source lines 354-362) restricted to
the calls the persistent layer issues, as a record of functions over an
abstract base-state type `β`.  `retrieve` returns the bytes and the
presence flag; store/remove/retrieve may fail with an error `E`
(an `Except.error` result leaves the caller's base state untouched). -/
structure BaseStorageOps (E β : Type) where
  store : β → StorageID → List Nat → Except E β
  remove : β → StorageID → Except E β
  retrieve : β → StorageID → Except E ((List Nat × Bool) × β)

/-- `InMemBaseStorage` as a `BaseStorageOps` instance: its store,
remove and retrieve always return a `nil` error (source lines
390-411). -/
def inMemOps (E : Type) : BaseStorageOps E InMemBaseStorage :=
  ⟨fun b id data => Except.ok (b.Store id data),
   fun b id => Except.ok (b.Remove id),
   fun b id => Except.ok (b.Retrieve id)⟩

/-- One call issued to the base storage during a commit. -/
inductive BaseCall where
  | store (id : StorageID) (data : List Nat)
  | remove (id : StorageID)
deriving DecidableEq

/-- The handle a base-store call is issued for. -/
def BaseCall.callID : BaseCall → StorageID
  | .store id _ => id
  | .remove id => id

/-- The comparator of `sortedOwnedDeltaKeys` (source lines 840-847) as
a non-strict total order: `a` precedes or equals `b` first by the
big-endian `uint64` value of the address, then of the index. -/
def idLE (a b : StorageID) : Prop :=
  a.address < b.address ∨ (a.address = b.address ∧ a.index ≤ b.index)

/-- Strict version of `idLE`: strictly ascending (address, index)
order. -/
def idLT (a b : StorageID) : Prop :=
  a.address < b.address ∨ (a.address = b.address ∧ a.index < b.index)

instance : DecidableRel idLE := fun a b => by
  dsimp [idLE]; infer_instance

instance : DecidableRel idLT := fun a b => by
  dsimp [idLT]; infer_instance

instance : IsTotal StorageID idLE :=
  ⟨by intro a b; unfold idLE; omega⟩

instance : IsTrans StorageID idLE :=
  ⟨by intro a b c; unfold idLE; omega⟩

/-- `PersistentSlabStorage.sortedOwnedDeltaKeys` (source lines
831-849): the delta keys whose address is not `AddressUndefined`,
sorted first by address then by index ascending.  `sort.Slice` with the
source's strict comparator produces a list sorted under `idLE`; on
distinct keys (Go map keys are distinct) that list is unique, so any
sorting algorithm models it — we use insertion sort. -/
def PersistentSlabStorage.sortedOwnedDeltaKeys {Slab : Type}
    (s : PersistentSlabStorage Slab) : List StorageID :=
  List.insertionSort idLE
    ((s.deltas.map Prod.fst).filter (fun k => k.address ≠ AddressUndefined))

/-- The loop body of `Commit` (source lines 857-883), iterating over
the sorted keys and threading the cache, the base state and the list of
issued base-store calls.  Per key: Go map indexing `s.deltas[id]`
(tombstone `nil` when absent) — a tombstone issues a base `remove`; a
live slab is encoded (an encoding failure aborts with no call for that
key) and issues a base `store`, then is added to the read cache.  Any
error aborts the loop. -/
def commitLoop {Slab E β : Type} (ops : BaseStorageOps E β)
    (enc : Slab → Except E (List Nat))
    (deltas : List (StorageID × Option Slab)) :
    List StorageID → List (StorageID × Slab) → β → List BaseCall →
    List (StorageID × Slab) × β × List BaseCall × Option E
  | [], cache, base, calls => (cache, base, calls, none)
  | id :: keys, cache, base, calls =>
    match mapGetD id deltas none with
    | none =>
      match ops.remove base id with
      | .error e => (cache, base, calls ++ [.remove id], some e)
      | .ok base' =>
        commitLoop ops enc deltas keys cache base' (calls ++ [.remove id])
    | some slab =>
      match enc slab with
      | .error e => (cache, base, calls, some e)
      | .ok data =>
        match ops.store base id data with
        | .error e => (cache, base, calls ++ [.store id data], some e)
        | .ok base' =>
          commitLoop ops enc deltas keys (mapInsert id slab cache) base'
            (calls ++ [.store id data])

/-- Result of a commit: the storage and base states afterwards, the
base-store calls issued, and the returned error (`none` = `nil`). -/
structure CommitResult (Slab E β : Type) where
  storage : PersistentSlabStorage Slab
  base : β
  calls : List BaseCall
  err : Option E
deriving DecidableEq

/-- `PersistentSlabStorage.Commit` (source lines 851-887): run the loop
over the sorted owned delta keys; only on success reset `deltas` to the
empty map. -/
def PersistentSlabStorage.Commit {Slab E β : Type}
    (ops : BaseStorageOps E β) (enc : Slab → Except E (List Nat))
    (s : PersistentSlabStorage Slab) (base : β) : CommitResult Slab E β :=
  let keys := s.sortedOwnedDeltaKeys
  match commitLoop ops enc s.deltas keys s.cache base [] with
  | (cache', base', calls, none) =>
    ⟨{ s with cache := cache', deltas := [] }, base', calls, none⟩
  | (cache', base', calls, some e) =>
    ⟨{ s with cache := cache' }, base', calls, some e⟩

/-- The encoding pass of `FastCommit` (source lines 894-949): every
key's delta is encoded (tombstones yield `nil` data) and the results
are gathered into `encSlabByID`; any encoding error aborts with that
error before any base-store call.  The Go version runs the encoders in
up to `numWorkers` goroutines, but the gathered map does not depend on
the schedule; the schedule only picks which error is reported when
several encodes fail, modelled here as the first in key order. -/
def fastEncodePass {Slab E : Type} (enc : Slab → Except E (List Nat))
    (deltas : List (StorageID × Option Slab)) :
    List StorageID → Except E (List (StorageID × Option (List Nat)))
  | [] => .ok []
  | id :: keys =>
    match mapGetD id deltas none with
    | none =>
      match fastEncodePass enc deltas keys with
      | .error e => .error e
      | .ok m => .ok ((id, none) :: m)
    | some slab =>
      match enc slab with
      | .error e => .error e
      | .ok data =>
        match fastEncodePass enc deltas keys with
        | .error e => .error e
        | .ok m => .ok ((id, some data) :: m)

/-- The apply loop of `FastCommit` (source lines 951-976): for each
sorted key, `nil` data (Go `encSlabByID[id] == nil`) issues a base
`remove`, otherwise a base `store` followed by `s.cache[id] =
s.deltas[id]`.  In the source the cached value is the delta slab; when
the delta lookup is a tombstone the Go code would cache `nil`, a case
unreachable from `FastCommit` (non-`nil` data implies a non-`nil`
delta) and modelled as leaving the cache unchanged. -/
def fastApplyLoop {Slab E β : Type} (ops : BaseStorageOps E β)
    (deltas : List (StorageID × Option Slab))
    (encSlabByID : List (StorageID × Option (List Nat))) :
    List StorageID → List (StorageID × Slab) → β → List BaseCall →
    List (StorageID × Slab) × β × List BaseCall × Option E
  | [], cache, base, calls => (cache, base, calls, none)
  | id :: keys, cache, base, calls =>
    match mapGetD id encSlabByID none with
    | none =>
      match ops.remove base id with
      | .error e => (cache, base, calls ++ [.remove id], some e)
      | .ok base' =>
        fastApplyLoop ops deltas encSlabByID keys cache base'
          (calls ++ [.remove id])
    | some data =>
      match ops.store base id data with
      | .error e => (cache, base, calls ++ [.store id data], some e)
      | .ok base' =>
        fastApplyLoop ops deltas encSlabByID keys
          (match mapGetD id deltas none with
           | some slab => mapInsert id slab cache
           | none => cache)
          base' (calls ++ [.store id data])

/-- `PersistentSlabStorage.FastCommit` (source lines 889-981): encode
all sorted owned deltas (in up to `numWorkers` concurrent workers in
the source — `numWorkers` does not affect the gathered results), then
issue the base-store calls in sorted key order; only on success reset
`deltas`.  Defined for `numWorkers ≥ 1` (the source loops forever when
`numWorkers = 0` and keys exist, since no worker ever fills the result
channel). -/
def PersistentSlabStorage.FastCommit {Slab E β : Type}
    (ops : BaseStorageOps E β) (enc : Slab → Except E (List Nat))
    (numWorkers : Nat) (s : PersistentSlabStorage Slab) (base : β) :
    CommitResult Slab E β :=
  let _ := numWorkers
  let keys := s.sortedOwnedDeltaKeys
  match fastEncodePass enc s.deltas keys with
  | .error e => ⟨s, base, [], some e⟩
  | .ok encSlabByID =>
    match fastApplyLoop ops s.deltas encSlabByID keys s.cache base [] with
    | (cache', base', calls, none) =>
      ⟨{ s with cache := cache', deltas := [] }, base', calls, none⟩
    | (cache', base', calls, some e) =>
      ⟨{ s with cache := cache' }, base', calls, some e⟩

/-- `PersistentSlabStorage.DropDeltas` (source lines 983-985). -/
def PersistentSlabStorage.DropDeltas {Slab : Type}
    (s : PersistentSlabStorage Slab) : PersistentSlabStorage Slab :=
  { s with deltas := [] }

/-- `PersistentSlabStorage.DropCache` (source lines 987-989). -/
def PersistentSlabStorage.DropCache {Slab : Type}
    (s : PersistentSlabStorage Slab) : PersistentSlabStorage Slab :=
  { s with cache := [] }

/-- `PersistentSlabStorage.Retrieve` (source lines 991-1015): deltas
first (a tombstone reports not-found), then the read cache, then the
base storage; bytes fetched from the base are decoded by `dec`
(`DecodeSlab` in the source, which lives outside the given sources) and
a successfully decoded slab is saved to the cache.  Returns the Go
triple `(slab, found, err)` — `slab` is `none` where Go returns a `nil`
slab — together with the updated storage and base states. -/
def PersistentSlabStorage.Retrieve {Slab E β : Type}
    (ops : BaseStorageOps E β)
    (dec : StorageID → List Nat → Except E Slab)
    (s : PersistentSlabStorage Slab) (base : β) (id : StorageID) :
    (Option Slab × Bool × Option E) × PersistentSlabStorage Slab × β :=
  match mapLookup id s.deltas with
  | some slabOpt => ((slabOpt, slabOpt.isSome, none), s, base)
  | none =>
    match mapLookup id s.cache with
    | some slab => ((some slab, true, none), s, base)
    | none =>
      match ops.retrieve base id with
      | .error e => ((none, false, some e), s, base)
      | .ok ((data, ok), base') =>
        match dec id data with
        | .error e => ((none, ok, some e), s, base')
        | .ok slab =>
          ((some slab, ok, none),
            { s with cache := mapInsert id slab s.cache }, base')

/-- `PersistentSlabStorage.Store` (source lines 1017-1034): with
`autoCommit` set, encode and store to the base directly and update the
read cache, leaving deltas untouched; otherwise record the slab in
deltas.  Returns the Go error and the updated states. -/
def PersistentSlabStorage.Store {Slab E β : Type}
    (ops : BaseStorageOps E β) (enc : Slab → Except E (List Nat))
    (s : PersistentSlabStorage Slab) (base : β) (id : StorageID)
    (slab : Slab) : Option E × PersistentSlabStorage Slab × β :=
  if s.autoCommit then
    match enc slab with
    | .error e => (some e, s, base)
    | .ok data =>
      match ops.store base id data with
      | .error e => (some e, s, base)
      | .ok base' =>
        (none, { s with cache := mapInsert id slab s.cache }, base')
  else
    (none, { s with deltas := mapInsert id (some slab) s.deltas }, base)

/-- `PersistentSlabStorage.Remove` (source lines 1036-1047): with
`autoCommit` set, remove from the base directly (an error returns
early); in every non-error path — `autoCommit` or not — a `nil`
tombstone is then recorded in deltas under the id. -/
def PersistentSlabStorage.Remove {Slab E β : Type}
    (ops : BaseStorageOps E β) (s : PersistentSlabStorage Slab)
    (base : β) (id : StorageID) :
    Option E × PersistentSlabStorage Slab × β :=
  if s.autoCommit then
    match ops.remove base id with
    | .error e => (some e, s, base)
    | .ok base' =>
      (none, { s with deltas := mapInsert id none s.deltas }, base')
  else
    (none, { s with deltas := mapInsert id none s.deltas }, base)

/-- `PersistentSlabStorage.GenerateStorageID` (source lines 821-829):
for `AddressUndefined`, increment the in-memory temporary counter (Go
`uint64` increment, wrapping) and return it as the index; otherwise
delegate to the base storage's allocator (here the in-memory base). -/
def PersistentSlabStorage.GenerateStorageID {Slab : Type}
    (s : PersistentSlabStorage Slab) (base : InMemBaseStorage)
    (address : Nat) :
    StorageID × PersistentSlabStorage Slab × InMemBaseStorage :=
  if address = AddressUndefined then
    let temp := (s.tempStorageIndex + 1) % u64Mod
    (NewStorageID address temp, { s with tempStorageIndex := temp }, base)
  else
    let (id, base') := base.GenerateStorageID address
    (id, s, base')

/-- `PersistentSlabStorage.Count` (source lines 1049-1052): the number
of segments stored in the base storage (here the in-memory base). -/
def PersistentSlabStorage.Count {Slab : Type}
    (_s : PersistentSlabStorage Slab) (base : InMemBaseStorage) : Nat :=
  base.SegmentCounts

/-- A pending mutation on the persistent storage: a `Store` or a
`Remove` call. -/
inductive PendingOp (Slab : Type) where
  | store (id : StorageID) (slab : Slab)
  | remove (id : StorageID)

/-- Apply a sequence of `Store`/`Remove` calls to a persistent storage
over the in-memory base. -/
def applyPendingOps {Slab E : Type} (enc : Slab → Except E (List Nat)) :
    List (PendingOp Slab) → PersistentSlabStorage Slab × InMemBaseStorage →
    PersistentSlabStorage Slab × InMemBaseStorage
  | [], sb => sb
  | .store id slab :: rest, (s, base) =>
    applyPendingOps enc rest
      (PersistentSlabStorage.Store (inMemOps E) enc s base id slab).2
  | .remove id :: rest, (s, base) =>
    applyPendingOps enc rest
      (PersistentSlabStorage.Remove (inMemOps E) s base id).2

/-- Replay a list of base-store calls against a base state: a call that
the oracle rejects leaves the state unchanged, exactly as in the commit
loop. -/
def replayCalls {E β : Type} (ops : BaseStorageOps E β) (base : β) :
    List BaseCall → β
  | [] => base
  | .store id data :: rest =>
    match ops.store base id data with
    | .ok base' => replayCalls ops base' rest
    | .error _ => replayCalls ops base rest
  | .remove id :: rest =>
    match ops.remove base id with
    | .ok base' => replayCalls ops base' rest
    | .error _ => replayCalls ops base rest

/-- Errors of the modelled slab decoder. -/
inductive DecodingError where
  | dataTooShort
  | unknownVersion
deriving DecidableEq

/-- A decoded slab as far as the modelled decoder is concerned: the
raw encoded bytes are kept opaque. -/
structure ModelSlab where
  data : List Nat
deriving DecidableEq

/-- Modelled from the spec: `DecodeSlab` is not among the given
sources; per the binary-codec section, every serialized slab begins
with a 1-byte version (which must be 0) and a 1-byte flag, and the
decoder rejects malformed input with a decoding error, so data shorter
than the 2-byte header — in particular the `nil` bytes of a missing
segment — fails to decode.  The body is kept opaque. -/
def DecodeSlabModel (_id : StorageID) (data : List Nat) :
    Except DecodingError ModelSlab :=
  match data with
  | v :: _flag :: _rest =>
    if v = 0 then .ok ⟨data⟩ else .error .unknownVersion
  | _ => .error .dataTooShort

/-- A digest: an unsigned 64-bit integer (`part_000` line 74),
modelled as `Nat`. -/
abbrev Digest := Nat

/-- `basicDigester` (`part_000` lines 102-107): the memoized level-0
circlehash, the memoized four 64-bit words of the blake3 hash (`(0, 0,
0, 0)` = `emptyBlake3Hash` when not yet computed), and the hash-input
message.  The `scratch` buffer is an allocation detail and is
omitted. -/
structure basicDigester where
  circleHash64 : Nat
  blake3Hash : Nat × Nat × Nat × Nat
  msg : List Nat
deriving DecidableEq

/-- `emptyBlake3Hash` (`part_000` lines 128-130). -/
def emptyBlake3Hash : Nat × Nat × Nat × Nat := (0, 0, 0, 0)

/-- `basicDigester.Reset` (`part_000` lines 165-169). -/
def basicDigester.Reset (_bd : basicDigester) : basicDigester :=
  ⟨0, emptyBlake3Hash, []⟩

/-- `basicDigester.Levels` (`part_000` lines 213-215). -/
def basicDigester.Levels (_bd : basicDigester) : Nat := 4

/-- The error built by `NewHashLevelErrorf` in `basicDigester.Digest`
(`part_000` line 191): the requested level and the exclusive bound. -/
structure HashLevelError where
  level : Nat
  bound : Nat
deriving DecidableEq

/-- `basicDigester.Digest` (`part_000` lines 188-211).  Any `level ≥
Levels() = 4` is rejected up front with a hash-level error; level 0 is
the memoized circlehash; levels 1-3 draw one 64-bit word each from the
blake3-256 hash of the message, computed lazily on first use and
memoized.  `blake3.Sum256` is an external library, passed as the
function parameter `sum256` (its four big-endian 64-bit words).  The
source's `default` switch case returns the zero digest (the list-mode
sentinel) but is unreachable behind the level guard.  Returns the
digest and the (possibly memoizing) updated digester. -/
def basicDigester.Digest (sum256 : List Nat → Nat × Nat × Nat × Nat)
    (bd : basicDigester) (level : Nat) :
    Except HashLevelError (Digest × basicDigester) :=
  if level ≥ bd.Levels then
    .error ⟨level, bd.Levels⟩
  else
    match level with
    | 0 => .ok (bd.circleHash64, bd)
    | 1 =>
      let h := if bd.blake3Hash = emptyBlake3Hash then sum256 bd.msg
               else bd.blake3Hash
      .ok (h.1, { bd with blake3Hash := h })
    | 2 =>
      let h := if bd.blake3Hash = emptyBlake3Hash then sum256 bd.msg
               else bd.blake3Hash
      .ok (h.2.1, { bd with blake3Hash := h })
    | 3 =>
      let h := if bd.blake3Hash = emptyBlake3Hash then sum256 bd.msg
               else bd.blake3Hash
      .ok (h.2.2.1, { bd with blake3Hash := h })
    | _ => .ok (0, bd)

section MapLemmas

variable {K V : Type} [DecidableEq K]

theorem mapLookup_cons_self {k : K} {v : V} {m : List (K × V)} :
    mapLookup k ((k, v) :: m) = some v := by
  simp [mapLookup]

theorem mapLookup_cons_ne {k k' : K} {v : V} {m : List (K × V)}
    (h : k' ≠ k) : mapLookup k ((k', v) :: m) = mapLookup k m := by
  simp [mapLookup, h]

theorem mapLookup_mem {k : K} {v : V} {m : List (K × V)}
    (h : mapLookup k m = some v) : (k, v) ∈ m := by
  induction m with
  | nil => simp [mapLookup] at h
  | cons p rest ih =>
    obtain ⟨k', v'⟩ := p
    by_cases hk : k' = k
    · subst hk
      rw [mapLookup_cons_self] at h
      cases h
      exact List.mem_cons_self _ _
    · rw [mapLookup_cons_ne hk] at h
      exact List.mem_cons_of_mem _ (ih h)

theorem mapLookup_mapInsert_self {k : K} {v : V} {m : List (K × V)} :
    mapLookup k (mapInsert k v m) = some v := by
  induction m with
  | nil => simp [mapInsert, mapLookup]
  | cons p rest ih =>
    obtain ⟨k', v'⟩ := p
    by_cases hk : k' = k
    · subst hk
      simp [mapInsert, mapLookup]
    · simp only [mapInsert, hk, if_false]
      rw [mapLookup_cons_ne hk]
      exact ih

theorem mapGetD_some {k : K} {m : List (K × V)} {d v : V}
    (h : mapGetD k m d = v) (hne : v ≠ d) : mapLookup k m = some v := by
  unfold mapGetD at h
  cases hL : mapLookup k m with
  | none => rw [hL] at h; simp at h; exact absurd h.symm hne
  | some w => rw [hL] at h; simp at h; rw [h]

end MapLemmas

/-! ### C8: digest levels at and above `Levels()` -/

/-- C8 counterexample: the claim says that for a default digester every
`Digest(level)` with `level ≥ 4` returns the sentinel zero digest
rather than failing; on the code, `Digest 4` fails with a hash-level
error (the list-mode `default` branch sits behind the `level >=
bd.Levels()` guard and is unreachable). -/
theorem digest_level_four_fails :
    basicDigester.Digest (fun _ => emptyBlake3Hash)
      ⟨0, emptyBlake3Hash, []⟩ 4 =
      Except.error ⟨4, 4⟩ := rfl

/-- C8 amended: for every digester state and every `level ≥ 4 =
Levels()`, `Digest(level)` returns a hash-level error carrying the
level and the bound 4; it never reaches the zero-digest list-mode
branch. -/
theorem digest_level_ge_levels_errors
    (sum256 : List Nat → Nat × Nat × Nat × Nat) (bd : basicDigester)
    (level : Nat) (h : 4 ≤ level) :
    bd.Digest sum256 level = Except.error ⟨level, 4⟩ := by
  unfold basicDigester.Digest basicDigester.Levels
  rw [if_pos]
  exact h

/-- Witness for `digest_level_ge_levels_errors` at level 7. -/
theorem digest_level_ge_levels_errors_witness :
    basicDigester.Digest (fun _ => emptyBlake3Hash)
      ⟨3, emptyBlake3Hash, [1, 2]⟩ 7 = Except.error ⟨7, 4⟩ :=
  digest_level_ge_levels_errors (fun _ => emptyBlake3Hash)
    ⟨3, emptyBlake3Hash, [1, 2]⟩ 7 (by decide)

/-! ### C9: freshness of generated storage ids -/

theorem storageIndexNext_lt (c : Nat) (h : c + 2 < u64Mod) :
    StorageIndex.Next c < StorageIndex.Next (StorageIndex.Next c) := by
  unfold StorageIndex.Next
  unfold u64Mod at h ⊢
  omega

/-- C9 counterexample: the per-address counter is a Go `uint64` and
wraps; with the counter for address 1 at `2 ^ 64 - 2`, the next two
generated indices are `2 ^ 64 - 1` and then `0`, so successive indices
are not strictly increasing. -/
theorem generateStorageID_wraparound :
    ¬ ((InMemBaseStorage.GenerateStorageID
          ⟨[], [(1, u64Mod - 2)], 0, 0, [], [], []⟩ 1).1.index <
       ((InMemBaseStorage.GenerateStorageID
          ⟨[], [(1, u64Mod - 2)], 0, 0, [], [], []⟩ 1).2.GenerateStorageID
          1).1.index) := by
  decide

/-- C9 amended: as long as the relevant counter has not reached the
`uint64` wrap (counter + 2 below `2 ^ 64`), two successive allocations
return handles for the requested address with strictly increasing
indices — both for the per-address counters of the in-memory base
storage and for the temporary counter that serves `AddressUndefined` in
the persistent storage. -/
theorem generateStorageID_monotone {Slab : Type} (s : InMemBaseStorage)
    (a : Nat) (p : PersistentSlabStorage Slab) (b : InMemBaseStorage)
    (h : mapGetD a s.storageIndex 0 + 2 < u64Mod)
    (ht : p.tempStorageIndex + 2 < u64Mod) :
    ((s.GenerateStorageID a).1.address = a ∧
      ((s.GenerateStorageID a).2.GenerateStorageID a).1.address = a ∧
      (s.GenerateStorageID a).1.index <
        ((s.GenerateStorageID a).2.GenerateStorageID a).1.index) ∧
    ((p.GenerateStorageID b AddressUndefined).1.index <
      ((p.GenerateStorageID b AddressUndefined).2.1.GenerateStorageID
        ((p.GenerateStorageID b AddressUndefined).2.2)
        AddressUndefined).1.index) := by
  constructor
  · refine ⟨rfl, rfl, ?_⟩
    show StorageIndex.Next (mapGetD a s.storageIndex 0) <
      StorageIndex.Next (mapGetD a
        (mapInsert a (StorageIndex.Next (mapGetD a s.storageIndex 0))
          s.storageIndex) 0)
    rw [show mapGetD a
        (mapInsert a (StorageIndex.Next (mapGetD a s.storageIndex 0))
          s.storageIndex) 0 =
        StorageIndex.Next (mapGetD a s.storageIndex 0) from by
      unfold mapGetD; rw [mapLookup_mapInsert_self]; rfl]
    exact storageIndexNext_lt _ h
  · show (p.tempStorageIndex + 1) % u64Mod <
      ((p.tempStorageIndex + 1) % u64Mod + 1) % u64Mod
    unfold u64Mod at ht ⊢
    omega

/-- Witness for `generateStorageID_monotone` on a fresh storage. -/
theorem generateStorageID_monotone_witness :
    ((NewInMemBaseStorage.GenerateStorageID 9).1.address = 9 ∧
      ((NewInMemBaseStorage.GenerateStorageID 9).2.GenerateStorageID
        9).1.address = 9 ∧
      (NewInMemBaseStorage.GenerateStorageID 9).1.index <
        ((NewInMemBaseStorage.GenerateStorageID 9).2.GenerateStorageID
          9).1.index) ∧
    (((NewPersistentSlabStorage Nat).GenerateStorageID
        NewInMemBaseStorage AddressUndefined).1.index <
      (((NewPersistentSlabStorage Nat).GenerateStorageID
          NewInMemBaseStorage AddressUndefined).2.1.GenerateStorageID
        (((NewPersistentSlabStorage Nat).GenerateStorageID
            NewInMemBaseStorage AddressUndefined).2.2)
        AddressUndefined).1.index) :=
  generateStorageID_monotone NewInMemBaseStorage 9
    (NewPersistentSlabStorage Nat) NewInMemBaseStorage
    (by decide) (by decide)

/-! ### C7: auto-commit store/remove -/

/-- C7 counterexample: the claim says both `Store` and `Remove` leave
the deltas map unchanged when `autoCommit` is set; on the code,
`Remove` calls the base directly but then still records a `nil`
tombstone in deltas. -/
theorem remove_autoCommit_touches_deltas :
    (PersistentSlabStorage.Remove (inMemOps Unit)
        (⟨[], [], 0, true⟩ : PersistentSlabStorage Nat)
        NewInMemBaseStorage ⟨1, 1⟩).2.1.deltas ≠
      (⟨[], [], 0, true⟩ : PersistentSlabStorage Nat).deltas := by
  decide

/-- C7 amended: with `autoCommit` set, `Store` encodes the slab, calls
the base store directly, updates only the read cache and leaves deltas
unchanged; `Remove` calls the base remove directly but still records a
tombstone for the id in deltas. -/
theorem autoCommit_store_bypasses_remove_records
    {Slab E β : Type} (ops : BaseStorageOps E β)
    (enc : Slab → Except E (List Nat)) (s : PersistentSlabStorage Slab)
    (base base2 base3 : β) (id : StorageID) (slab : Slab)
    (data : List Nat) (h : s.autoCommit = true)
    (henc : enc slab = Except.ok data)
    (hstore : ops.store base id data = Except.ok base2)
    (hrem : ops.remove base id = Except.ok base3) :
    PersistentSlabStorage.Store ops enc s base id slab =
      (none, { s with cache := mapInsert id slab s.cache }, base2) ∧
    PersistentSlabStorage.Remove ops s base id =
      (none, { s with deltas := mapInsert id none s.deltas }, base3) := by
  constructor
  · simp [PersistentSlabStorage.Store, h, henc, hstore]
  · simp [PersistentSlabStorage.Remove, h, hrem]

/-- Witness for `autoCommit_store_bypasses_remove_records`. -/
theorem autoCommit_store_bypasses_remove_records_witness :
    PersistentSlabStorage.Store (inMemOps Unit) (fun n => Except.ok [n])
        (⟨[], [], 0, true⟩ : PersistentSlabStorage Nat)
        NewInMemBaseStorage ⟨1, 1⟩ 5 =
      (none,
        { (⟨[], [], 0, true⟩ : PersistentSlabStorage Nat) with
          cache := mapInsert ⟨1, 1⟩ 5 [] },
        NewInMemBaseStorage.Store ⟨1, 1⟩ [5]) ∧
    PersistentSlabStorage.Remove (inMemOps Unit)
        (⟨[], [], 0, true⟩ : PersistentSlabStorage Nat)
        NewInMemBaseStorage ⟨1, 1⟩ =
      (none,
        { (⟨[], [], 0, true⟩ : PersistentSlabStorage Nat) with
          deltas := mapInsert ⟨1, 1⟩ none [] },
        NewInMemBaseStorage.Remove ⟨1, 1⟩) :=
  autoCommit_store_bypasses_remove_records (inMemOps Unit)
    (fun n => Except.ok [n]) ⟨[], [], 0, true⟩ NewInMemBaseStorage
    (NewInMemBaseStorage.Store ⟨1, 1⟩ [5])
    (NewInMemBaseStorage.Remove ⟨1, 1⟩) ⟨1, 1⟩ 5 [5] rfl rfl rfl rfl

/-! ### C10: Count ignores pending deltas -/

theorem applyPendingOps_base_unchanged {Slab E : Type}
    (enc : Slab → Except E (List Nat)) (l : List (PendingOp Slab)) :
    ∀ (s : PersistentSlabStorage Slab) (base : InMemBaseStorage),
      s.autoCommit = false →
      (applyPendingOps enc l (s, base)).2 = base ∧
      (applyPendingOps enc l (s, base)).1.autoCommit = false := by
  induction l with
  | nil => intro s base h; exact ⟨rfl, h⟩
  | cons op rest ih =>
    intro s base h
    cases op with
    | store id slab =>
      have step : applyPendingOps enc (PendingOp.store id slab :: rest)
          (s, base) =
          applyPendingOps enc rest
            ({ s with deltas := mapInsert id (some slab) s.deltas },
              base) := by
        show applyPendingOps enc rest
          (PersistentSlabStorage.Store (inMemOps E) enc s base id
            slab).2 = _
        rw [show PersistentSlabStorage.Store (inMemOps E) enc s base id
            slab =
            (none,
              { s with deltas := mapInsert id (some slab) s.deltas },
              base) from by
          simp [PersistentSlabStorage.Store, h]]
      rw [step]
      exact ih _ base h
    | remove id =>
      have step : applyPendingOps enc (PendingOp.remove id :: rest)
          (s, base) =
          applyPendingOps enc rest
            ({ s with deltas := mapInsert id none s.deltas }, base) := by
        show applyPendingOps enc rest
          (PersistentSlabStorage.Remove (inMemOps E) s base id).2 = _
        rw [show PersistentSlabStorage.Remove (inMemOps E) s base id =
            (none, { s with deltas := mapInsert id none s.deltas },
              base) from by
          simp [PersistentSlabStorage.Remove, h]]
      rw [step]
      exact ih _ base h

/-- C10: with `autoCommit` unset, any sequence of `Store`/`Remove`
calls only touches the deltas map, so the base storage is unchanged and
`Count` — which returns the base storage's committed segment count —
is unchanged by the pending deltas. -/
theorem count_ignores_pending_deltas {Slab E : Type}
    (enc : Slab → Except E (List Nat)) (l : List (PendingOp Slab))
    (s : PersistentSlabStorage Slab) (base : InMemBaseStorage)
    (h : s.autoCommit = false) :
    (applyPendingOps enc l (s, base)).2 = base ∧
    (applyPendingOps enc l (s, base)).1.Count
        (applyPendingOps enc l (s, base)).2 = s.Count base := by
  obtain ⟨hb, _⟩ := applyPendingOps_base_unchanged enc l s base h
  refine ⟨hb, ?_⟩
  unfold PersistentSlabStorage.Count
  rw [hb]

/-- The byte encoder used by concrete witnesses: a slab `n : Nat`
encodes to the one-byte string `[n]`; it never fails. -/
def natEnc (n : Nat) : Except Unit (List Nat) := Except.ok [n]

/-- Witness for `count_ignores_pending_deltas`: one store and one
remove over a base holding one committed segment. -/
theorem count_ignores_pending_deltas_witness :
    ((applyPendingOps natEnc
        [PendingOp.store ⟨1, 2⟩ 7, PendingOp.remove ⟨1, 1⟩]
        (NewPersistentSlabStorage Nat,
          NewInMemBaseStorage.Store ⟨1, 1⟩ [9])).2 =
      NewInMemBaseStorage.Store ⟨1, 1⟩ [9]) ∧
    ((applyPendingOps natEnc
        [PendingOp.store ⟨1, 2⟩ 7, PendingOp.remove ⟨1, 1⟩]
        (NewPersistentSlabStorage Nat,
          NewInMemBaseStorage.Store ⟨1, 1⟩ [9])).1.Count
        (applyPendingOps natEnc
          [PendingOp.store ⟨1, 2⟩ 7, PendingOp.remove ⟨1, 1⟩]
          (NewPersistentSlabStorage Nat,
            NewInMemBaseStorage.Store ⟨1, 1⟩ [9])).2 =
      (NewPersistentSlabStorage Nat).Count
        (NewInMemBaseStorage.Store ⟨1, 1⟩ [9])) :=
  count_ignores_pending_deltas natEnc
    [PendingOp.store ⟨1, 2⟩ 7, PendingOp.remove ⟨1, 1⟩]
    (NewPersistentSlabStorage Nat)
    (NewInMemBaseStorage.Store ⟨1, 1⟩ [9]) rfl

/-! ### C6: retrieve on an everywhere-absent handle -/

/-- C6 (code bug): for a handle absent from deltas, cache and base
store, `Retrieve` reports `found = false` but NOT a `nil` error: the
code passes the `nil` bytes of the missing segment to the decoder and
returns its decoding error.  Evaluated here at the concrete absent
handle (1, 1) over empty storage with the spec-modelled decoder. -/
theorem retrieve_missing_handle_returns_error :
    (PersistentSlabStorage.Retrieve (inMemOps DecodingError)
        DecodeSlabModel (NewPersistentSlabStorage ModelSlab)
        NewInMemBaseStorage ⟨1, 1⟩).1 =
      (none, false, some DecodingError.dataTooShort) := by
  decide

/-! ### Commit loop structure: issued calls and resulting base state -/

theorem idLE_ne_lt {a b : StorageID} (h : idLE a b) (hne : a ≠ b) :
    idLT a b := by
  obtain ⟨a1, a2⟩ := a
  obtain ⟨b1, b2⟩ := b
  unfold idLE at h
  unfold idLT
  simp only [ne_eq, StorageID.mk.injEq, not_and] at hne
  dsimp only at h ⊢
  omega

/-- The sorted owned delta keys are strictly ascending when the delta
keys are distinct (Go map keys always are). -/
theorem sortedOwnedDeltaKeys_pairwise {Slab : Type}
    (s : PersistentSlabStorage Slab)
    (hnd : (s.deltas.map Prod.fst).Nodup) :
    s.sortedOwnedDeltaKeys.Pairwise idLT := by
  unfold PersistentSlabStorage.sortedOwnedDeltaKeys
  have hfl : ((s.deltas.map Prod.fst).filter
      (fun k => k.address ≠ AddressUndefined)).Nodup :=
    hnd.filter _
  have hsorted := List.sorted_insertionSort idLE
    ((s.deltas.map Prod.fst).filter
      (fun k => k.address ≠ AddressUndefined))
  have hperm := List.perm_insertionSort idLE
    ((s.deltas.map Prod.fst).filter
      (fun k => k.address ≠ AddressUndefined))
  have hnd2 := hperm.nodup_iff.mpr hfl
  exact (hsorted.and hnd2).imp (fun h => idLE_ne_lt h.1 h.2)

/-- Every sorted owned delta key has a defined (non-zero) address. -/
theorem sortedOwnedDeltaKeys_address {Slab : Type}
    (s : PersistentSlabStorage Slab) (id : StorageID)
    (h : id ∈ s.sortedOwnedDeltaKeys) : id.address ≠ AddressUndefined := by
  unfold PersistentSlabStorage.sortedOwnedDeltaKeys at h
  have hm := (List.perm_insertionSort idLE _).mem_iff.mp h
  have := List.of_mem_filter hm
  simpa using this

/-- Structure of the commit loop: it appends to the accumulated calls
a block whose handles form a subsequence of the keys it was given, and
its resulting base state is the replay of that block. -/
theorem commitLoop_spec {Slab E β : Type} (ops : BaseStorageOps E β)
    (enc : Slab → Except E (List Nat))
    (deltas : List (StorageID × Option Slab)) :
    ∀ (keys : List StorageID) (cache : List (StorageID × Slab))
      (base : β) (calls : List BaseCall),
      ∃ ext,
        (commitLoop ops enc deltas keys cache base calls).2.2.1 =
          calls ++ ext ∧
        List.Sublist (ext.map BaseCall.callID) keys ∧
        (commitLoop ops enc deltas keys cache base calls).2.1 =
          replayCalls ops base ext := by
  intro keys
  induction keys with
  | nil =>
    intro cache base calls
    exact ⟨[], by simp [commitLoop], List.nil_sublist _, rfl⟩
  | cons id keys ih =>
    intro cache base calls
    cases hd : mapGetD id deltas none with
    | none =>
      cases hr : ops.remove base id with
      | error e =>
        refine ⟨[.remove id], ?_, ?_, ?_⟩
        · simp [commitLoop, hd, hr]
        · simp [BaseCall.callID]
        · simp [commitLoop, hd, hr, replayCalls]
      | ok base' =>
        obtain ⟨ext, h1, h2, h3⟩ := ih cache base' (calls ++ [.remove id])
        refine ⟨.remove id :: ext, ?_, ?_, ?_⟩
        · rw [show commitLoop ops enc deltas (id :: keys) cache base
              calls =
              commitLoop ops enc deltas keys cache base'
                (calls ++ [.remove id]) from by
            simp [commitLoop, hd, hr]]
          rw [h1]
          simp
        · exact List.Sublist.cons₂ id h2
        · rw [show commitLoop ops enc deltas (id :: keys) cache base
              calls =
              commitLoop ops enc deltas keys cache base'
                (calls ++ [.remove id]) from by
            simp [commitLoop, hd, hr]]
          rw [h3]
          simp [replayCalls, hr]
    | some slab =>
      cases he : enc slab with
      | error e =>
        refine ⟨[], ?_, List.nil_sublist _, ?_⟩
        · simp [commitLoop, hd, he]
        · simp [commitLoop, hd, he, replayCalls]
      | ok data =>
        cases hs : ops.store base id data with
        | error e =>
          refine ⟨[.store id data], ?_, ?_, ?_⟩
          · simp [commitLoop, hd, he, hs]
          · simp [BaseCall.callID]
          · simp [commitLoop, hd, he, hs, replayCalls]
        | ok base' =>
          obtain ⟨ext, h1, h2, h3⟩ :=
            ih (mapInsert id slab cache) base' (calls ++ [.store id data])
          refine ⟨.store id data :: ext, ?_, ?_, ?_⟩
          · rw [show commitLoop ops enc deltas (id :: keys) cache base
                calls =
                commitLoop ops enc deltas keys (mapInsert id slab cache)
                  base' (calls ++ [.store id data]) from by
              simp [commitLoop, hd, he, hs]]
            rw [h1]
            simp
          · exact List.Sublist.cons₂ id h2
          · rw [show commitLoop ops enc deltas (id :: keys) cache base
                calls =
                commitLoop ops enc deltas keys (mapInsert id slab cache)
                  base' (calls ++ [.store id data]) from by
              simp [commitLoop, hd, he, hs]]
            rw [h3]
            simp [replayCalls, hs]

/-- The components of `Commit` in terms of the commit loop; on an
error, deltas are left untouched. -/
theorem Commit_components {Slab E β : Type} (ops : BaseStorageOps E β)
    (enc : Slab → Except E (List Nat)) (s : PersistentSlabStorage Slab)
    (base : β) :
    (s.Commit ops enc base).calls =
      (commitLoop ops enc s.deltas s.sortedOwnedDeltaKeys s.cache base
        []).2.2.1 ∧
    (s.Commit ops enc base).base =
      (commitLoop ops enc s.deltas s.sortedOwnedDeltaKeys s.cache base
        []).2.1 ∧
    (s.Commit ops enc base).err =
      (commitLoop ops enc s.deltas s.sortedOwnedDeltaKeys s.cache base
        []).2.2.2 ∧
    ((s.Commit ops enc base).err ≠ none →
      (s.Commit ops enc base).storage.deltas = s.deltas) := by
  rcases hcl : commitLoop ops enc s.deltas s.sortedOwnedDeltaKeys
    s.cache base [] with ⟨c', b', cl, err⟩
  cases err <;> simp [PersistentSlabStorage.Commit, hcl]

/-! ### C1: strictly ascending base-store call order in commit -/

/-- C1: within a single commit (delta keys distinct, as Go map keys
always are), the handles of the issued base-store calls — removes for
tombstones, stores for encoded slabs — are strictly ascending, first by
the big-endian `uint64` value of the address, then of the index; this
holds on every path, including commits aborted by an error. -/
theorem commit_calls_strictly_ascending {Slab E β : Type}
    (ops : BaseStorageOps E β) (enc : Slab → Except E (List Nat))
    (s : PersistentSlabStorage Slab) (base : β)
    (hnd : (s.deltas.map Prod.fst).Nodup) :
    ((s.Commit ops enc base).calls.map BaseCall.callID).Pairwise idLT := by
  have hkeys := sortedOwnedDeltaKeys_pairwise s hnd
  obtain ⟨ext, h1, h2, h3⟩ :=
    commitLoop_spec ops enc s.deltas s.sortedOwnedDeltaKeys s.cache base []
  obtain ⟨hcalls, _, _, _⟩ := Commit_components ops enc s base
  rw [hcalls, h1, List.nil_append]
  exact hkeys.sublist h2

/-- Witness for `commit_calls_strictly_ascending`: three deltas across
two addresses, one a tombstone, committed over the in-memory base. -/
theorem commit_calls_strictly_ascending_witness :
    (((⟨[], [(⟨2, 1⟩, some 7), (⟨1, 2⟩, none), (⟨1, 1⟩, some 5)], 0,
          false⟩ :
        PersistentSlabStorage Nat).Commit (inMemOps Unit) natEnc
        NewInMemBaseStorage).calls.map BaseCall.callID).Pairwise idLT := by
  apply commit_calls_strictly_ascending (inMemOps Unit) natEnc
    ⟨[], [(⟨2, 1⟩, some 7), (⟨1, 2⟩, none), (⟨1, 1⟩, some 5)], 0, false⟩
    NewInMemBaseStorage
  decide

/-! ### C5: commit never persists undefined-address deltas -/

/-- C5: no base-store call issued by a commit carries the undefined
(zero) address: deltas whose handle address is `AddressUndefined` are
filtered out before the loop, so a temporary allocation is never
persisted. -/
theorem commit_skips_undefined_address {Slab E β : Type}
    (ops : BaseStorageOps E β) (enc : Slab → Except E (List Nat))
    (s : PersistentSlabStorage Slab) (base : β) (c : BaseCall)
    (hc : c ∈ (s.Commit ops enc base).calls) :
    c.callID.address ≠ AddressUndefined := by
  obtain ⟨ext, h1, h2, h3⟩ :=
    commitLoop_spec ops enc s.deltas s.sortedOwnedDeltaKeys s.cache base []
  obtain ⟨hcalls, _, _, _⟩ := Commit_components ops enc s base
  rw [hcalls, h1, List.nil_append] at hc
  exact sortedOwnedDeltaKeys_address s c.callID
    (h2.mem (List.mem_map_of_mem BaseCall.callID hc))

/-- Witness for `commit_skips_undefined_address`: a commit holding both
an undefined-address delta and an owned delta; the issued store call
for the owned delta has a non-zero address. -/
theorem commit_skips_undefined_address_witness :
    BaseCall.store ⟨1, 1⟩ [5] ∈
      ((⟨[], [(⟨0, 3⟩, some 9), (⟨1, 1⟩, some 5)], 0, false⟩ :
        PersistentSlabStorage Nat).Commit (inMemOps Unit) natEnc
        NewInMemBaseStorage).calls ∧
    (BaseCall.store ⟨1, 1⟩ [5]).callID.address ≠ AddressUndefined :=
  have hmem : BaseCall.store ⟨1, 1⟩ [5] ∈
      ((⟨[], [(⟨0, 3⟩, some 9), (⟨1, 1⟩, some 5)], 0, false⟩ :
        PersistentSlabStorage Nat).Commit (inMemOps Unit) natEnc
        NewInMemBaseStorage).calls := by decide
  ⟨hmem,
    commit_skips_undefined_address (inMemOps Unit) natEnc
      ⟨[], [(⟨0, 3⟩, some 9), (⟨1, 1⟩, some 5)], 0, false⟩
      NewInMemBaseStorage (BaseCall.store ⟨1, 1⟩ [5]) hmem⟩

/-! ### C4: failed commits keep deltas and apply only issued calls -/

/-- C4: when commit returns an error, the deltas map is exactly as
before the call (every delta still pending, so a retry attempts the
full set), and the resulting base state is precisely the replay of the
base-store calls issued before the abort — nothing beyond the calls
already applied. -/
theorem commit_error_preserves_deltas {Slab E β : Type}
    (ops : BaseStorageOps E β) (enc : Slab → Except E (List Nat))
    (s : PersistentSlabStorage Slab) (base : β) (e : E)
    (h : (s.Commit ops enc base).err = some e) :
    (s.Commit ops enc base).storage.deltas = s.deltas ∧
    (s.Commit ops enc base).base =
      replayCalls ops base (s.Commit ops enc base).calls := by
  obtain ⟨hcalls, hbase, herr, hdeltas⟩ := Commit_components ops enc s base
  obtain ⟨ext, h1, h2, h3⟩ :=
    commitLoop_spec ops enc s.deltas s.sortedOwnedDeltaKeys s.cache base []
  refine ⟨hdeltas (by rw [h]; exact Option.some_ne_none e), ?_⟩
  rw [hbase, hcalls, h1, List.nil_append, h3]

/-- Witness for `commit_error_preserves_deltas`: a two-delta state
whose second delta fails to encode; the first store call is applied,
the error is returned and deltas survive. -/
theorem commit_error_preserves_deltas_witness :
    ((⟨[], [(⟨1, 1⟩, some 0), (⟨1, 2⟩, some 1)], 0, false⟩ :
        PersistentSlabStorage Nat).Commit (inMemOps Nat)
        (fun n => if n = 0 then Except.ok [0] else Except.error 7)
        NewInMemBaseStorage).storage.deltas =
      [(⟨1, 1⟩, some 0), (⟨1, 2⟩, some 1)] ∧
    ((⟨[], [(⟨1, 1⟩, some 0), (⟨1, 2⟩, some 1)], 0, false⟩ :
        PersistentSlabStorage Nat).Commit (inMemOps Nat)
        (fun n => if n = 0 then Except.ok [0] else Except.error 7)
        NewInMemBaseStorage).base =
      replayCalls (inMemOps Nat) NewInMemBaseStorage
        ((⟨[], [(⟨1, 1⟩, some 0), (⟨1, 2⟩, some 1)], 0, false⟩ :
          PersistentSlabStorage Nat).Commit (inMemOps Nat)
          (fun n => if n = 0 then Except.ok [0] else Except.error 7)
          NewInMemBaseStorage).calls :=
  commit_error_preserves_deltas (inMemOps Nat)
    (fun n => if n = 0 then Except.ok [0] else Except.error 7)
    ⟨[], [(⟨1, 1⟩, some 0), (⟨1, 2⟩, some 1)], 0, false⟩
    NewInMemBaseStorage 7 (by decide)

/-! ### C3: retrieve layering over deltas, cache and base -/

/-- C3: `Retrieve` returns the delta entry when the handle is in
deltas (a tombstone reports not-found), otherwise the cache entry when
the handle is in the cache, and otherwise decodes the bytes fetched
from the base store and saves the decoded slab into the cache before
returning it. -/
theorem retrieve_layering {Slab E β : Type} (ops : BaseStorageOps E β)
    (dec : StorageID → List Nat → Except E Slab)
    (s : PersistentSlabStorage Slab) (base : β) (id : StorageID) :
    (∀ o, mapLookup id s.deltas = some o →
      s.Retrieve ops dec base id = ((o, o.isSome, none), s, base)) ∧
    (mapLookup id s.deltas = none →
      ∀ c, mapLookup id s.cache = some c →
        s.Retrieve ops dec base id = ((some c, true, none), s, base)) ∧
    (mapLookup id s.deltas = none → mapLookup id s.cache = none →
      ∀ (data : List Nat) (ok : Bool) (base' : β) (slab : Slab),
        ops.retrieve base id = Except.ok ((data, ok), base') →
        dec id data = Except.ok slab →
        s.Retrieve ops dec base id =
          ((some slab, ok, none),
            { s with cache := mapInsert id slab s.cache }, base')) := by
  refine ⟨?_, ?_, ?_⟩
  · intro o ho
    simp [PersistentSlabStorage.Retrieve, ho]
  · intro hd c hc
    simp [PersistentSlabStorage.Retrieve, hd, hc]
  · intro hd hc data ok base' slab hr hdec
    simp [PersistentSlabStorage.Retrieve, hd, hc, hr, hdec]

/-- Witness for `retrieve_layering`: the base-store path over the
in-memory base holding one encoded segment, decoded by the modelled
decoder and saved into the cache. -/
theorem retrieve_layering_witness :
    PersistentSlabStorage.Retrieve (inMemOps DecodingError)
        DecodeSlabModel (NewPersistentSlabStorage ModelSlab)
        (NewInMemBaseStorage.Store ⟨1, 1⟩ [0, 5]) ⟨1, 1⟩ =
      ((some ⟨[0, 5]⟩, true, none),
        { NewPersistentSlabStorage ModelSlab with
          cache := mapInsert ⟨1, 1⟩ ⟨[0, 5]⟩ [] },
        ((NewInMemBaseStorage.Store ⟨1, 1⟩ [0, 5]).Retrieve ⟨1, 1⟩).2) :=
  (retrieve_layering (inMemOps DecodingError) DecodeSlabModel
      (NewPersistentSlabStorage ModelSlab)
      (NewInMemBaseStorage.Store ⟨1, 1⟩ [0, 5]) ⟨1, 1⟩).2.2
    rfl rfl [0, 5] true
    ((NewInMemBaseStorage.Store ⟨1, 1⟩ [0, 5]).Retrieve ⟨1, 1⟩).2
    ⟨[0, 5]⟩ rfl rfl

/-! ### C2: fast commit versus commit -/

/-- The gathered encodings `m` agree with encoding the delta of `id`:
a tombstone (or absent) delta has `nil` data, a live slab has its
successful encoding. -/
def encAgrees {Slab E : Type} (enc : Slab → Except E (List Nat))
    (deltas : List (StorageID × Option Slab))
    (m : List (StorageID × Option (List Nat))) (id : StorageID) : Prop :=
  match mapGetD id deltas none with
  | none => mapGetD id m none = none
  | some slab =>
    ∃ data, enc slab = Except.ok data ∧ mapGetD id m none = some data

theorem fastEncodePass_ok {Slab E : Type}
    (enc : Slab → Except E (List Nat))
    (deltas : List (StorageID × Option Slab)) :
    ∀ keys : List StorageID,
      (∀ id ∈ keys, ∀ slab, mapGetD id deltas none = some slab →
        ∃ data, enc slab = Except.ok data) →
      ∃ m, fastEncodePass enc deltas keys = Except.ok m ∧
        ∀ id ∈ keys, encAgrees enc deltas m id := by
  intro keys
  induction keys with
  | nil =>
    intro _
    exact ⟨[], rfl, by simp⟩
  | cons id keys ih =>
    intro h
    obtain ⟨m', hm', hag⟩ :=
      ih (fun i hi slab hs => h i (List.mem_cons_of_mem _ hi) slab hs)
    cases hd : mapGetD id deltas none with
    | none =>
      refine ⟨(id, none) :: m', ?_, ?_⟩
      · simp [fastEncodePass, hd, hm']
      · intro i hi
        by_cases hii : id = i
        · subst hii
          unfold encAgrees
          rw [hd]
          unfold mapGetD
          rw [mapLookup_cons_self]
          rfl
        · have hi' : i ∈ keys := by
            rcases List.mem_cons.mp hi with h' | h'
            · exact absurd h'.symm hii
            · exact h'
          have hrest := hag i hi'
          unfold encAgrees at hrest ⊢
          rw [show mapGetD i ((id, (none : Option (List Nat))) :: m')
              none = mapGetD i m' none from by
            unfold mapGetD
            rw [mapLookup_cons_ne hii]]
          exact hrest
    | some slab =>
      obtain ⟨data, hdata⟩ := h id (List.mem_cons_self id keys) slab hd
      refine ⟨(id, some data) :: m', ?_, ?_⟩
      · simp [fastEncodePass, hd, hdata, hm']
      · intro i hi
        by_cases hii : id = i
        · subst hii
          unfold encAgrees
          rw [hd]
          refine ⟨data, hdata, ?_⟩
          unfold mapGetD
          rw [mapLookup_cons_self]
          rfl
        · have hi' : i ∈ keys := by
            rcases List.mem_cons.mp hi with h' | h'
            · exact absurd h'.symm hii
            · exact h'
          have hrest := hag i hi'
          unfold encAgrees at hrest ⊢
          rw [show mapGetD i ((id, some data) :: m') none =
              mapGetD i m' none from by
            unfold mapGetD
            rw [mapLookup_cons_ne hii]]
          exact hrest

/-- When the gathered encodings agree with the deltas, the apply loop
of `FastCommit` coincides with the loop of `Commit`. -/
theorem fastApplyLoop_eq_commitLoop {Slab E β : Type}
    (ops : BaseStorageOps E β) (enc : Slab → Except E (List Nat))
    (deltas : List (StorageID × Option Slab))
    (m : List (StorageID × Option (List Nat))) :
    ∀ (keys : List StorageID) (cache : List (StorageID × Slab))
      (base : β) (calls : List BaseCall),
      (∀ id ∈ keys, encAgrees enc deltas m id) →
      fastApplyLoop ops deltas m keys cache base calls =
        commitLoop ops enc deltas keys cache base calls := by
  intro keys
  induction keys with
  | nil => intro cache base calls _; rfl
  | cons id keys ih =>
    intro cache base calls hag
    have hid := hag id (List.mem_cons_self id keys)
    have hrest := fun i hi => hag i (List.mem_cons_of_mem _ hi)
    unfold encAgrees at hid
    cases hd : mapGetD id deltas none with
    | none =>
      rw [hd] at hid
      cases hr : ops.remove base id with
      | error e => simp [fastApplyLoop, commitLoop, hd, hid, hr]
      | ok base' =>
        simp only [fastApplyLoop, commitLoop, hd, hid, hr]
        exact ih cache base' _ hrest
    | some slab =>
      rw [hd] at hid
      obtain ⟨data, hdata, hm⟩ := hid
      cases hs : ops.store base id data with
      | error e => simp [fastApplyLoop, commitLoop, hd, hm, hdata, hs]
      | ok base' =>
        simp only [fastApplyLoop, commitLoop, hd, hm, hdata, hs]
        exact ih _ base' _ hrest

/-- C2 counterexample: the claim says `fast_commit(n)` is identical to
`commit` for EVERY storage state; with a delta that fails to encode,
`Commit` issues the store call for the earlier-sorted delta (and caches
it) before aborting, while `FastCommit` aborts during the encode pass
with no base-store call at all, so the results differ. -/
theorem fastCommit_differs_from_commit_on_encoding_error :
    (⟨[], [(⟨1, 1⟩, some 0), (⟨1, 2⟩, some 1)], 0, false⟩ :
        PersistentSlabStorage Nat).FastCommit (inMemOps Nat)
        (fun n => if n = 0 then Except.ok [0] else Except.error 7) 1
        NewInMemBaseStorage ≠
      (⟨[], [(⟨1, 1⟩, some 0), (⟨1, 2⟩, some 1)], 0, false⟩ :
        PersistentSlabStorage Nat).Commit (inMemOps Nat)
        (fun n => if n = 0 then Except.ok [0] else Except.error 7)
        NewInMemBaseStorage := by
  decide

/-- C2 amended: whenever every pending delta encodes successfully (in
particular on every commit that succeeds), `fast_commit(n)` — whose
gathered worker results do not depend on the worker count — produces a
result identical to `commit`: the same base-store calls in the same
deterministic order, the same returned error, and the same cache and
deltas afterwards.  When an encoding fails the two differ as the
counterexample shows: `fast_commit` issues no base-store call, while
`commit` applies the calls sorted before the failing delta. -/
theorem fastCommit_eq_commit_of_encode_ok {Slab E β : Type}
    (ops : BaseStorageOps E β) (enc : Slab → Except E (List Nat))
    (numWorkers : Nat) (s : PersistentSlabStorage Slab) (base : β)
    (h : ∀ p ∈ s.deltas, ∀ slab : Slab, p.2 = some slab →
      ∃ data, enc slab = Except.ok data) :
    s.FastCommit ops enc numWorkers base = s.Commit ops enc base := by
  have hkeys : ∀ id ∈ s.sortedOwnedDeltaKeys, ∀ slab,
      mapGetD id s.deltas none = some slab →
      ∃ data, enc slab = Except.ok data := by
    intro id _ slab hs
    have hL : mapLookup id s.deltas = some (some slab) := by
      unfold mapGetD at hs
      cases hL : mapLookup id s.deltas with
      | none => rw [hL] at hs; simp at hs
      | some o => rw [hL] at hs; simp at hs; rw [hs]
    exact h (id, some slab) (mapLookup_mem hL) slab rfl
  obtain ⟨m, hm, hag⟩ :=
    fastEncodePass_ok enc s.deltas s.sortedOwnedDeltaKeys hkeys
  have lhs_eq : s.FastCommit ops enc numWorkers base =
      match fastApplyLoop ops s.deltas m s.sortedOwnedDeltaKeys s.cache
        base [] with
      | (cache', base', calls, none) =>
        ⟨{ s with cache := cache', deltas := [] }, base', calls, none⟩
      | (cache', base', calls, some e) =>
        ⟨{ s with cache := cache' }, base', calls, some e⟩ := by
    unfold PersistentSlabStorage.FastCommit
    simp only [hm]
  rw [lhs_eq,
    fastApplyLoop_eq_commitLoop ops enc s.deltas m
      s.sortedOwnedDeltaKeys s.cache base [] hag]
  rfl

/-- Witness for `fastCommit_eq_commit_of_encode_ok`: two deltas, one a
tombstone, under the total encoder; fast commit with 2 workers equals
commit. -/
theorem fastCommit_eq_commit_of_encode_ok_witness :
    (⟨[], [(⟨1, 1⟩, some 4), (⟨1, 2⟩, none)], 0, false⟩ :
        PersistentSlabStorage Nat).FastCommit (inMemOps Unit) natEnc 2
        NewInMemBaseStorage =
      (⟨[], [(⟨1, 1⟩, some 4), (⟨1, 2⟩, none)], 0, false⟩ :
        PersistentSlabStorage Nat).Commit (inMemOps Unit) natEnc
        NewInMemBaseStorage :=
  fastCommit_eq_commit_of_encode_ok (inMemOps Unit) natEnc 2
    ⟨[], [(⟨1, 1⟩, some 4), (⟨1, 2⟩, none)], 0, false⟩
    NewInMemBaseStorage (fun _ _ slab _ => ⟨[slab], rfl⟩)

end Atree
